import Mathlib

/-!
Verification of the paper-readings repository's core logic against its
natural-language specification.

The Python sources under `scripts/` are shallowly embedded below:

* calendar dates are proleptic-Gregorian ordinals (`Int`), exactly the value of
  Python's `datetime.date.toordinal()` (ordinal 1 = 0001-01-01, a Monday);
* `datetime.date.fromisoformat` is modelled for its canonical `YYYY-MM-DD`
  form (the only form the repository's data and validator documentation use);
* environment lookups and the external `zoneinfo` database are passed in as
  explicit parameters;
* fallible operations return `Option`/`Except`.
-/

set_option maxRecDepth 8000

/-! ## Calendar dates (model of `datetime.date`) -/

/-- Is `y` a Gregorian leap year (model of `calendar.isleap`, as used by
`datetime.date`). -/
def isLeap (y : Nat) : Bool :=
  y % 4 == 0 && (y % 100 != 0 || y % 400 == 0)

/-- Number of days in month `m` of year `y` (1-based months). -/
def daysInMonth (y m : Nat) : Nat :=
  if m = 2 then (if isLeap y then 29 else 28)
  else if m = 4 ∨ m = 6 ∨ m = 9 ∨ m = 11 then 30
  else 31

/-- Days in year `y` that precede month `m` (1-based). -/
def daysBeforeMonth (y m : Nat) : Nat :=
  (match m with
   | 1 => 0 | 2 => 31 | 3 => 59 | 4 => 90 | 5 => 120 | 6 => 151
   | 7 => 181 | 8 => 212 | 9 => 243 | 10 => 273 | 11 => 304 | _ => 334)
  + (if 2 < m ∧ isLeap y then 1 else 0)

/-- Proleptic-Gregorian ordinal of the date `(y, m, d)`:
the value of Python's `date(y, m, d).toordinal()`; ordinal 1 is 0001-01-01. -/
def toOrdinal (y m d : Nat) : Nat :=
  365 * (y - 1) + (y - 1) / 4 - (y - 1) / 100 + (y - 1) / 400
    + daysBeforeMonth y m + d

/-- Numeric value of a decimal digit character. -/
def digitVal (c : Char) : Nat := c.toNat - 48

/-- Model of `datetime.date.fromisoformat` restricted to its canonical
`YYYY-MM-DD` form: returns the `(year, month, day)` triple when the string is a
valid calendar date, and `none` otherwise (Python raises `ValueError`). -/
def fromIsoFormat (s : String) : Option (Nat × Nat × Nat) :=
  match s.toList with
  | [y1, y2, y3, y4, h1, m1, m2, h2, d1, d2] =>
    if y1.isDigit && y2.isDigit && y3.isDigit && y4.isDigit && h1 == '-' &&
       m1.isDigit && m2.isDigit && h2 == '-' && d1.isDigit && d2.isDigit then
      let y := ((digitVal y1 * 10 + digitVal y2) * 10 + digitVal y3) * 10 + digitVal y4
      let m := digitVal m1 * 10 + digitVal m2
      let d := digitVal d1 * 10 + digitVal d2
      if 1 ≤ y ∧ 1 ≤ m ∧ m ≤ 12 ∧ 1 ≤ d ∧ d ≤ daysInMonth y m then
        some (y, m, d)
      else none
    else none
  | _ => none

/-- Model of `scripts/build_readme.py`, `parse_date`: parse an ISO date string to an
ordinal, `none` on any failure. -/
def parse_date (s : String) : Option Int :=
  (fromIsoFormat s).map (fun t => (toOrdinal t.1 t.2.1 t.2.2 : Int))

/-- Python's `date.weekday()` on an ordinal: 0 = Monday … 6 = Sunday
(ordinal 1, 0001-01-01, was a Monday). -/
def weekday (d : Int) : Int := (d - 1) % 7

/-- Ordinal of `datetime.date.min` = 0001-01-01. -/
def dateMinOrdinal : Int := 1

/-! ## Entries (`build_readme.py`'s view of one YAML record)

`p.get(key, default)` on a Python dict is modelled by `Option.getD` on these
fields; `none` is an absent key. -/

structure Entry where
  title : Option String := none
  category : Option String := none
  date : Option String := none
  link : Option String := none
deriving DecidableEq

/-- The date string `p.get("date", "")` of an entry. -/
def Entry.dateStr (p : Entry) : String := p.date.getD ""

/-! ## Timezone resolution (`today_in_tz`)

The externals (environment, the `zoneinfo` database, the clock) are passed in
explicitly. -/

/-- The two environment variables read by `today_in_tz`; `none` = unset. -/
structure Env where
  papers_tz : Option String
  tz : Option String

/-- External facts `today_in_tz` consults: whether `zoneinfo` imported, which
zone names construct a `ZoneInfo` without raising, today's date in a given
zone, and the process-local date. -/
structure TzConfig where
  zoneinfoAvailable : Bool
  validZone : String → Bool
  zoneToday : String → Int
  localToday : Int

/-- Python's `a or b` on two optional strings: `b` unless `a` is a non-empty
string. -/
def pyOr (a b : Option String) : Option String :=
  match a with
  | some s => if s = "" then b else some s
  | none => b

/-- Python truthiness of an optional string. -/
def truthyStr (a : Option String) : Bool :=
  match a with
  | some s => s != ""
  | none => false

/-- Model of `scripts/build_readme.py`, `today_in_tz`:
`tz_name = PAPERS_TZ or TZ`; if `tz_name` is truthy and `zoneinfo` imported,
try `ZoneInfo(tz_name)` — on success return today in that zone, on failure
fall through (`except: pass`) — and otherwise return the system-local date. -/
def today_in_tz (cfg : TzConfig) (env : Env) : Int :=
  match pyOr env.papers_tz env.tz with
  | some name =>
    if name = "" then cfg.localToday
    else if cfg.zoneinfoAvailable then
      if cfg.validZone name then cfg.zoneToday name else cfg.localToday
    else cfg.localToday
  | none => cfg.localToday

/-- Modelled from the spec (§6 Environment configuration, as amended): the
resolution chain consults the explicit override first; if it is unset or
empty, the ambient `TZ`; a consulted name that is invalid (or an unavailable
zone database) yields the process-local date directly. -/
def resolveChainSpec (cfg : TzConfig) (env : Env) : Int :=
  if truthyStr env.papers_tz then
    match env.papers_tz with
    | some name =>
      if cfg.zoneinfoAvailable && cfg.validZone name then cfg.zoneToday name
      else cfg.localToday
    | none => cfg.localToday
  else if truthyStr env.tz then
    match env.tz with
    | some name =>
      if cfg.zoneinfoAvailable && cfg.validZone name then cfg.zoneToday name
      else cfg.localToday
    | none => cfg.localToday
  else cfg.localToday

/-! ## Calendar heatmap grid (`make_calendar_heatmap`, grid-building part) -/

/-- Does entry `p` parse to a date inside `[start, today]`?  This is the
filter in `make_calendar_heatmap`'s `per_day` loop:
`d = parse_date(p.get("date", "")); if d and start <= d <= today`. -/
def inWindow (start today : Int) (p : Entry) : Bool :=
  match parse_date p.dateStr with
  | some x => decide (start ≤ x) && decide (x ≤ today)
  | none => false

/-- The `per_day` mapping of `make_calendar_heatmap`: the number of entries whose parsed
date equals `d`, counting only entries whose date lies in `[start, today]`
(`per_day.get(d, 0)` — absent keys read as 0). -/
def per_day (papers : List Entry) (start today : Int) (d : Int) : Nat :=
  papers.countP (fun p =>
    match parse_date p.dateStr with
    | some x => decide (start ≤ x) && decide (x ≤ today) && decide (x = d)
    | none => false)

/-- Number of entries whose parsed date equals `d` (no window filter);
the count the spec ascribes to an in-range cell. -/
def countOnDate (papers : List Entry) (d : Int) : Nat :=
  papers.countP (fun p => parse_date p.dateStr == some d)

/-- The shift `days_to_prev_sun = (start.weekday() + 1) % 7`. -/
def days_to_prev_sun (start : Int) : Int := (weekday start + 1) % 7

/-- The date `grid_start = start - timedelta(days=days_to_prev_sun)`. -/
def grid_start (start : Int) : Int := start - days_to_prev_sun start

/-- Absolute date of the grid position at week-column `w`, day-of-week row
`dow` (0 = Sunday … 6 = Saturday): the `dd = d + timedelta(days=dow)` of the
loop, where `d` is the `w`-th week start `grid_start + 7*w`. -/
def cellDate (start : Int) (w dow : Nat) : Int :=
  grid_start start + 7 * (w : Int) + (dow : Int)

/-- Row index (0 = Sunday … 6 = Saturday) of the grid row holding date `d`. -/
def sunRow (d : Int) : Int := (weekday d + 1) % 7

/-- The 7 × 53 `data` array of `make_calendar_heatmap` with its NaN masking:
entry at row `dow`, column `w` is `some (per_day.get(dd, 0))` when
`start <= dd <= today` (the cell is in range) and `none` (NaN — drawn as
absent) otherwise, with `start = today - 364`. -/
def heatmapData (papers : List Entry) (today : Int) : List (List (Option Nat)) :=
  let start := today - 364
  (List.range 7).map fun dow =>
    (List.range 53).map fun w =>
      let dd := cellDate start w dow
      if start ≤ dd ∧ dd ≤ today then some (per_day papers start today dd)
      else none

/-- Sum of the counts of all present (in-range) cells of a grid. -/
def gridTotal (grid : List (List (Option Nat))) : Nat :=
  (grid.map (fun row => (row.map (fun c => c.getD 0)).sum)).sum

/-! ## Intensity buckets (`custom_cmap`) -/

/-- The clamp `int(max(0, min(value, 5)))` at the top of `custom_cmap`
(counts are integers, so `int(_)` is the identity here). -/
def bucket (value : Int) : Int := max 0 (min value 5)

/-- The six-step palette of `custom_cmap`, buckets 0 … 5 in order. -/
def palette : List String :=
  ["#888888", "#1c526b", "#177b90", "#12a5b5", "#0dceda", "#08f7fe"]

/-- Model of `scripts/build_readme.py`, `custom_cmap`. -/
def custom_cmap (value : Int) : String :=
  match bucket value with
  | 0 => "#888888"
  | 1 => "#1c526b"
  | 2 => "#177b90"
  | 3 => "#12a5b5"
  | 4 => "#0dceda"
  | 5 => "#08f7fe"
  | _ => "#ffffff"


/-! ## Stable sorting (model of Python's `sorted`)

Python's `sorted` is stable, also with `reverse=True`: elements whose keys
compare equal keep their original relative order.  `sortStable le` is a stable
insertion sort into `le`-nondecreasing order for a total transitive Boolean
preorder `le`. -/

/-- Insert `x` before the first element `y` with `le x y` (so `x`, which comes
earlier in the original list, goes in front of elements tied with it). -/
def insertS (le : α → α → Bool) (x : α) : List α → List α
  | [] => [x]
  | y :: ys => if le x y then x :: y :: ys else y :: insertS le x ys

/-- Stable insertion sort by the Boolean preorder `le`. -/
def sortStable (le : α → α → Bool) : List α → List α
  | [] => []
  | x :: xs => insertS le x (sortStable le xs)

theorem insertS_perm (le : α → α → Bool) (x : α) :
    ∀ l : List α, (insertS le x l).Perm (x :: l) := by
  intro l
  induction l with
  | nil => simp [insertS]
  | cons y ys ih =>
    by_cases h : le x y = true
    · simp [insertS, h]
    · simp only [insertS, h, if_neg]
      exact (List.Perm.cons y ih).trans (List.Perm.swap x y ys)

theorem sortStable_perm (le : α → α → Bool) :
    ∀ l : List α, (sortStable le l).Perm l := by
  intro l
  induction l with
  | nil => simp [sortStable]
  | cons x xs ih =>
    exact (insertS_perm le x (sortStable le xs)).trans (ih.cons x)

theorem mem_insertS (le : α → α → Bool) (x : α) (l : List α) (z : α) :
    z ∈ insertS le x l ↔ z = x ∨ z ∈ l := by
  have := (insertS_perm le x l).mem_iff (a := z)
  simpa using this

theorem insertS_pairwise (le : α → α → Bool)
    (htrans : ∀ a b c, le a b = true → le b c = true → le a c = true)
    (htot : ∀ a b, le a b = true ∨ le b a = true)
    (x : α) :
    ∀ l : List α, l.Pairwise (fun a b => le a b = true) →
      (insertS le x l).Pairwise (fun a b => le a b = true) := by
  intro l
  induction l with
  | nil => intro _; simp [insertS]
  | cons y ys ih =>
    intro hp
    rcases List.pairwise_cons.mp hp with ⟨hy, hys⟩
    by_cases h : le x y = true
    · rw [show insertS le x (y :: ys) = x :: y :: ys by simp [insertS, h]]
      refine List.pairwise_cons.mpr ⟨?_, hp⟩
      intro z hz
      rcases List.mem_cons.mp hz with hzy | hzys
      · subst hzy; exact h
      · exact htrans x y z h (hy z hzys)
    · rw [show insertS le x (y :: ys) = y :: insertS le x ys by simp [insertS, h]]
      refine List.pairwise_cons.mpr ⟨?_, ih hys⟩
      intro z hz
      rcases (mem_insertS le x ys z).mp hz with rfl | hzys
      · rcases htot z y with h' | h'
        · exact absurd h' h
        · exact h'
      · exact hy z hzys

theorem sortStable_pairwise (le : α → α → Bool)
    (htrans : ∀ a b c, le a b = true → le b c = true → le a c = true)
    (htot : ∀ a b, le a b = true ∨ le b a = true) :
    ∀ l : List α, (sortStable le l).Pairwise (fun a b => le a b = true) := by
  intro l
  induction l with
  | nil => simp [sortStable]
  | cons x xs ih => exact insertS_pairwise le htrans htot x _ ih

/-- Inserting an element whose original index is smaller than every index in
an already-sorted-and-stable list keeps the stability invariant: pairs are
`le`-ordered and ties are ordered by original index. -/
theorem insertS_stable {α : Type _} (le : α → α → Bool)
    (htrans : ∀ a b c, le a b = true → le b c = true → le a c = true)
    (htot : ∀ a b, le a b = true ∨ le b a = true)
    (x : Nat × α) :
    ∀ l : List (Nat × α), (∀ q ∈ l, x.1 < q.1) →
      l.Pairwise (fun p q => le p.2 q.2 = true ∧ (le q.2 p.2 = true → p.1 < q.1)) →
      (insertS (fun p q => le p.2 q.2) x l).Pairwise
        (fun p q => le p.2 q.2 = true ∧ (le q.2 p.2 = true → p.1 < q.1)) := by
  intro l
  induction l with
  | nil => intro _ _; simp [insertS]
  | cons y ys ih =>
    intro hidx hp
    rcases List.pairwise_cons.mp hp with ⟨hy, hys⟩
    by_cases h : le x.2 y.2 = true
    · rw [show insertS (fun p q => le p.2 q.2) x (y :: ys) = x :: y :: ys by
        simp [insertS, h]]
      refine List.pairwise_cons.mpr ⟨?_, hp⟩
      intro z hz
      rcases List.mem_cons.mp hz with hzy | hzys
      · subst hzy
        exact ⟨h, fun _ => hidx z (List.mem_cons_self z ys)⟩
      · refine ⟨htrans _ _ _ h (hy z hzys).1, fun _ => hidx z (List.mem_cons_of_mem y hzys)⟩
    · rw [show insertS (fun p q => le p.2 q.2) x (y :: ys) = y :: insertS (fun p q => le p.2 q.2) x ys by
        simp [insertS, h]]
      refine List.pairwise_cons.mpr
        ⟨?_, ih (fun q hq => hidx q (List.mem_cons_of_mem y hq)) hys⟩
      intro z hz
      rcases (mem_insertS (fun p q => le p.2 q.2) x ys z).mp hz with rfl | hzys
      · rcases htot z.2 y.2 with h' | h'
        · exact absurd h' h
        · exact ⟨h', fun hc => absurd hc h⟩
      · exact hy z hzys

/-- Running `sortStable` on a list whose first components are strictly increasing
(e.g. `List.enum` of the original input) is stable: in the output, every pair
is `le`-ordered, and ties (related by `le` both ways) keep their original
index order. -/
theorem sortStable_stable {α : Type _} (le : α → α → Bool)
    (htrans : ∀ a b c, le a b = true → le b c = true → le a c = true)
    (htot : ∀ a b, le a b = true ∨ le b a = true) :
    ∀ l : List (Nat × α), l.Pairwise (fun p q => p.1 < q.1) →
      (sortStable (fun p q => le p.2 q.2) l).Pairwise
        (fun p q => le p.2 q.2 = true ∧ (le q.2 p.2 = true → p.1 < q.1)) := by
  intro l
  induction l with
  | nil => intro _; simp [sortStable]
  | cons x xs ih =>
    intro hp
    rcases List.pairwise_cons.mp hp with ⟨hx, hxs⟩
    refine insertS_stable le htrans htot x _ ?_ (ih hxs)
    intro q hq
    exact hx q ((sortStable_perm _ xs).mem_iff.mp hq)

/-- Lemma: `insertS` commutes with mapping when the orders correspond along the map. -/
theorem insertS_map {α β : Type _} (le : β → β → Bool) (le' : α → α → Bool)
    (f : α → β) (hcomp : ∀ p q, le' p q = le (f p) (f q)) (x : α) :
    ∀ l : List α, (insertS le' x l).map f = insertS le (f x) (l.map f) := by
  intro l
  induction l with
  | nil => simp [insertS]
  | cons y ys ih =>
    by_cases h : le' x y = true
    · simp [insertS, h, ← hcomp]
    · simp only [insertS, h, if_neg, Bool.not_eq_true, List.map_cons, ← hcomp]
      simp [h, ih]

/-- Lemma: `sortStable` commutes with mapping when the orders correspond. -/
theorem sortStable_map {α β : Type _} (le : β → β → Bool) (le' : α → α → Bool)
    (f : α → β) (hcomp : ∀ p q, le' p q = le (f p) (f q)) :
    ∀ l : List α, (sortStable le' l).map f = sortStable le (l.map f) := by
  intro l
  induction l with
  | nil => simp [sortStable]
  | cons x xs ih =>
    simp only [sortStable, List.map_cons]
    rw [insertS_map le le' f hcomp, ih]

/-- The indices of `List.enum` (more generally `enumFrom`) are strictly
increasing. -/
theorem pairwise_lt_enumFrom {α : Type _} :
    ∀ (n : Nat) (l : List α), (List.enumFrom n l).Pairwise (fun p q => p.1 < q.1) := by
  intro n l
  induction l generalizing n with
  | nil => simp
  | cons x xs ih =>
    refine List.pairwise_cons.mpr ⟨?_, ih (n + 1)⟩
    intro q hq
    have := List.le_fst_of_mem_enumFrom hq
    omega

/-! ## Recent list (`make_recent_list_md`) -/

/-- The inner `pd` of `make_recent_list_md`: parse the date string, and on any
failure use `datetime.date.min` (ordinal 1). -/
def recentKey (p : Entry) : Int := (parse_date p.dateStr).getD dateMinOrdinal

/-- The comparison realised by `sorted(papers, key=pd, reverse=True)`: a
stable sort into key-nonincreasing order. -/
def recentLe (p q : Entry) : Bool := decide (recentKey q ≤ recentKey p)

/-- The list `s = sorted(papers, key=lambda p: pd(p.get("date", "")),
reverse=True)` of `make_recent_list_md` (Python's `sorted` is stable, also
with `reverse=True`). -/
def recentSorted (papers : List Entry) : List Entry := sortStable recentLe papers

/-- The entries rendered by `make_recent_list_md`: the slice `s[:limit]`. -/
def recent (papers : List Entry) (limit : Nat) : List Entry :=
  (recentSorted papers).take limit

/-! ## Breakdown table (`render_table_md`) -/

/-- Python's `str.lower` on the ASCII range (the only range exercised here):
`A`–`Z` map to `a`–`z`, other characters are unchanged. -/
def lowerAscii (s : String) : String :=
  String.mk (s.toList.map fun c =>
    if 65 ≤ c.toNat ∧ c.toNat ≤ 90 then Char.ofNat (c.toNat + 32) else c)

/-- Python string `<=`: lexicographic by code point, a proper prefix is
smaller. -/
def strLeB : List Char → List Char → Bool
  | [], _ => true
  | _ :: _, [] => false
  | a :: as, b :: bs =>
    if a.toNat < b.toNat then true
    else if b.toNat < a.toNat then false
    else strLeB as bs

/-- The comparison realised by
`sorted(counts.items(), key=lambda kv: (-kv[1], kv[0].lower()))`:
Python tuple order on `(-count, name.lower())`. -/
def tableLe (a b : String × Nat) : Bool :=
  if a.2 = b.2 then strLeB (lowerAscii a.1).toList (lowerAscii b.1).toList
  else decide (b.2 < a.2)

/-- The sorted rows of `render_table_md`.  `counts` is `Counter`'s
`.items()` view: an association list in first-insertion order with distinct
keys. -/
def tableRows (counts : List (String × Nat)) : List (String × Nat) :=
  sortStable tableLe counts

/-- Model of `scripts/build_readme.py`, `render_table_md`: the emitted Markdown lines. -/
def render_table_md (counts : List (String × Nat)) (total : Nat) : List String :=
  ["\n**Breakdown**", "", "| Category | Count |", "|---|---|"]
    ++ (tableRows counts).map (fun kv => "| " ++ kv.1 ++ " | " ++ toString kv.2 ++ " |")
    ++ ["| **Total** | **" ++ toString total ++ "** |"]

/-! ## Categorisation (`main`) -/

/-- The label `p.get("category", "Unknown")` of `main`'s `Counter` comprehension. -/
def effCategory (p : Entry) : String := p.category.getD "Unknown"

/-- The mapping `counts = Counter([p.get("category", "Unknown") for p in papers])` read as
a multiplicity function: the count stored under label `c`. -/
def categoryCount (papers : List Entry) (c : String) : Nat :=
  (papers.map effCategory).count c

/-! ## README splicing (`update_readme`) -/

/-- The literal `MARK_START` of `build_readme.py`. -/
def MARK_START : List Char := "<!--CHART_START-->".toList

/-- The literal `MARK_END` of `build_readme.py`. -/
def MARK_END : List Char := "<!--CHART_END-->".toList

/-- Python's `str.find`: index of the first occurrence of `pat` in `hay`
(`none` for Python's `-1`). -/
def firstMatch : List Char → List Char → Option Nat
  | [], pat => if pat.isPrefixOf [] then some 0 else none
  | c :: t, pat =>
    if pat.isPrefixOf (c :: t) then some 0
    else (firstMatch t pat).map (· + 1)

/-- Model of `scripts/build_readme.py`, `update_readme`, on an in-memory document:
find both markers, raise (`Except.error`) when either is missing or the end
marker's first occurrence precedes the start marker's, and otherwise return
the document with everything strictly between the first `MARK_START` and the
first `MARK_END` replaced by `"\n" ++ insert ++ "\n"`.  The README file is
written only in the success case, so on error the document is unmodified. -/
def update_readme (md insert : List Char) : Except String (List Char) :=
  match firstMatch md MARK_START, firstMatch md MARK_END with
  | some s, some e =>
    if e < s then Except.error "Markers not found in README.md"
    else Except.ok (md.take (s + MARK_START.length) ++ ('\n' :: insert) ++ ('\n' :: md.drop e))
  | _, _ => Except.error "Markers not found in README.md"


/-! ## Validation CLI (`scripts/validate_papers.py`)

One YAML record is either not a mapping, or a mapping giving each known key
an optional value (`none` = key absent) plus its unknown keys.  A value is a
string or some other scalar with a known Python truthiness.  `error()` writes
to stderr and `warn()` to stdout, so the two streams are modelled separately.
Python's quote characters inside messages are omitted. -/

inductive Val where
  | str (s : String)
  | other (truthy : Bool)
deriving DecidableEq

/-- Python truthiness of a value. -/
def Val.pyTruthy : Val → Bool
  | .str s => s != ""
  | .other t => t

/-- Python `v or ""` on an optional value. -/
def pyOrEmpty (v : Option Val) : Val :=
  match v with
  | some w => if w.pyTruthy then w else .str ""
  | none => .str ""

/-- The `isinstance(v, str)` refinement: the string when the value is one. -/
def strField (v : Option Val) : Option String :=
  match v with
  | some (.str s) => some s
  | _ => none

/-- Is every character of `s` whitespace, i.e. is `s.strip()` empty /
falsy (ASCII whitespace, the range exercised here)? -/
def isBlankStr (s : String) : Bool :=
  s.toList.all fun c =>
    c == ' ' || c == '\t' || c == '\n' || c == '\r' || c.toNat == 11 || c.toNat == 12

/-- Model of `scripts/validate_papers.py`, `is_iso_date`. -/
def is_iso_date (s : String) : Bool := (fromIsoFormat s).isSome

/-- Model of `scripts/validate_papers.py`, `is_url`: `re.match(r"^https?://", s)`. -/
def is_url (s : String) : Bool :=
  "http://".toList.isPrefixOf s.toList || "https://".toList.isPrefixOf s.toList

inductive Item where
  | notMapping
  | mapping (title category date link note : Option Val) (unknown : List String)
deriving DecidableEq

/-- Does a `title`/`category` value pass
`isinstance(v, str) and v.strip()`? -/
def nonBlankStrOk (v : Option Val) : Bool :=
  match strField v with
  | some s => !isBlankStr s
  | none => false

/-- The record-level error messages for item number `i` (1-based), in the
order `main` emits them; independent of the duplicate-tracking state. -/
def recErrors (i : Nat) (it : Item) : List String :=
  match it with
  | .notMapping => ["item #" ++ toString i ++ " must be a mapping"]
  | .mapping t c d l n _ =>
    (if nonBlankStrOk t then [] else ["item #" ++ toString i ++ ": missing or empty title"])
    ++ (if nonBlankStrOk c then [] else ["item #" ++ toString i ++ ": missing or empty category"])
    ++ (match strField d with
        | some s => if is_iso_date s then [] else ["item #" ++ toString i ++ ": date must be ISO YYYY-MM-DD"]
        | none => ["item #" ++ toString i ++ ": date must be ISO YYYY-MM-DD"])
    ++ (match strField l with
        | some s => if is_url s then [] else ["item #" ++ toString i ++ ": link must be an http(s) URL"]
        | none => ["item #" ++ toString i ++ ": link must be an http(s) URL"])
    ++ (match n with
        | some (.other _) => ["item #" ++ toString i ++ ": note must be a string if present"]
        | _ => [])

/-- One loop iteration of `main`: the warnings item `i` emits and the updated
duplicate-tracking state (`seen_link`, `seen_title_date`). -/
def recWarns (i : Nat) (it : Item) (seenL : List String) (seenTD : List (Val × Val)) :
    List String × List String × List (Val × Val) :=
  match it with
  | .notMapping => ([], seenL, seenTD)
  | .mapping t _ d l _ unk =>
    let wUnk : List String :=
      if unk.isEmpty then []
      else ["item #" ++ toString i ++ ": unknown keys ["
              ++ String.intercalate ", " (sortStable (fun a b => strLeB a.toList b.toList) unk)
              ++ "] (will be ignored)"]
    let linkDup : List String × List String :=
      match strField l with
      | some s =>
        if s != "" then
          ((if s ∈ seenL then ["item #" ++ toString i ++ ": duplicate link " ++ s] else []),
           s :: seenL)
        else ([], seenL)
      | none => ([], seenL)
    let key : Val × Val := (pyOrEmpty t, pyOrEmpty d)
    let tdDup : List String × List (Val × Val) :=
      if key.1.pyTruthy && key.2.pyTruthy then
        ((if key ∈ seenTD then ["item #" ++ toString i ++ ": duplicate title+date"] else []),
         key :: seenTD)
      else ([], seenTD)
    (wUnk ++ linkDup.1 ++ tdDup.1, linkDup.2, tdDup.2)

/-- The validation loop of `main`, from item number `i` with the given seen
state: all error lines (stderr) and warning lines (stdout). -/
def validateAux : Nat → List Item → List String → List (Val × Val) → List String × List String
  | _, [], _, _ => ([], [])
  | i, it :: rest, sL, sTD =>
    let w := recWarns i it sL sTD
    let r := validateAux (i + 1) rest w.2.1 w.2.2
    (recErrors i it ++ r.1, w.1 ++ r.2)

/-- Observable outcome of one run of `scripts/validate_papers.py`'s `main` on
an already-parsed top-level list: the per-record error lines, the warning
lines, and the exit code (`return 1 if errors else 0`; the final
`validation failed with N error(s)` summary line is not a record error). -/
structure VResult where
  errors : List String
  warns : List String
  exitCode : Nat
deriving DecidableEq

/-- Model of `scripts/validate_papers.py`, `main`, record-validation part. -/
def validate_papers (items : List Item) : VResult :=
  let r := validateAux 1 items [] []
  ⟨r.1, r.2, if r.1.length ≠ 0 then 1 else 0⟩

/-! ## Concrete instances used by counterexamples, witnesses and scenarios -/

/-- A zone world for the C4 counterexample: `zoneinfo` available, only
`"UTC"` a valid zone, today-in-zone 100, process-local date 0. -/
def cfgCex : TzConfig := ⟨true, fun s => s == "UTC", fun _ => 100, 0⟩

/-- Environment with an invalid explicit override and a valid ambient zone. -/
def envCex : Env := ⟨some "Not/A/Zone", some "UTC"⟩

/-- An entry with no date key at all. -/
def missingEntry : Entry := {}

/-- An entry dated `0001-01-01` = `datetime.date.min`, a valid ISO date. -/
def minDateEntry : Entry := { date := some "0001-01-01" }

/-- Two equal-count categories whose case-sensitive and case-insensitive
name orders disagree. -/
def countsCex : List (String × Nat) := [("B", 1), ("a", 1)]

/-- The C10 scenario dataset: item 1 lacks `title`, item 2 has the invalid
date `2024-13-40`; all other fields are valid, links distinct. -/
def scenarioItems : List Item :=
  [Item.mapping none (some (.str "ML")) (some (.str "2024-01-01"))
     (some (.str "https://a.example")) none [],
   Item.mapping (some (.str "T")) (some (.str "CV")) (some (.str "2024-13-40"))
     (some (.str "https://b.example")) none []]

/-- A document with one occurrence of each marker, in order. -/
def mdCex : List Char := "A<!--CHART_START-->B<!--CHART_END-->C".toList

/-! ## Supporting lemmas -/

/-- A successfully parsed ISO date has year and day at least 1. -/
theorem fromIsoFormat_bounds {s : String} {t : Nat × Nat × Nat}
    (h : fromIsoFormat s = some t) : 1 ≤ t.1 ∧ 1 ≤ t.2.2 := by
  simp only [fromIsoFormat] at h
  split at h
  · split at h
    · split at h
      · rename_i hcond
        simp only [Option.some.injEq] at h
        subst h
        exact ⟨hcond.1, hcond.2.2.2.1⟩
      · exact absurd h (by simp)
    · exact absurd h (by simp)
  · exact absurd h (by simp)

/-- Any parsed date is at least `datetime.date.min`'s ordinal 1. -/
theorem parse_date_pos {s : String} {x : Int} (h : parse_date s = some x) :
    dateMinOrdinal ≤ x := by
  unfold parse_date at h
  cases hf : fromIsoFormat s with
  | none => rw [hf] at h; simp at h
  | some t =>
    rw [hf] at h
    simp at h
    have hd := (fromIsoFormat_bounds hf).2
    have hord : 1 ≤ toOrdinal t.1 t.2.1 t.2.2 := by
      unfold toOrdinal
      omega
    unfold dateMinOrdinal
    rw [← h]
    exact_mod_cast hord

/-- Every entry key used by the recent-list sort is at least `date.min`. -/
theorem recentKey_ge_min (p : Entry) : dateMinOrdinal ≤ recentKey p := by
  unfold recentKey
  cases h : parse_date p.dateStr with
  | none => simp [dateMinOrdinal]
  | some x => simpa using parse_date_pos h

/-! ## Claim theorems -/

/-- C2: for every window start, `grid_start` is the Sunday (weekday 6 in the
0 = Monday convention) on or before `start`, `start` always lies in the first
week column, and the column-0 cell in the row of `start`'s (Sunday-based)
weekday has date exactly `start`. -/
theorem grid_alignment (start : Int) :
    weekday (grid_start start) = 6 ∧
    grid_start start ≤ start ∧ start < grid_start start + 7 ∧
    0 ≤ sunRow start ∧ sunRow start < 7 ∧
    cellDate start 0 (sunRow start).toNat = start := by
  simp only [weekday, grid_start, days_to_prev_sun, sunRow, cellDate]
  refine ⟨?_, ?_, ?_, ?_, ?_, ?_⟩ <;> push_cast <;> omega

/-- C7: the intensity mapping clamps to `[0, 5]` (counts above 5 saturate to
bucket 5, negative counts clamp to 0), and each bucket selects the
corresponding colour of the fixed six-step palette. -/
theorem bucket_saturation :
    (∀ v : Int, 0 ≤ bucket v ∧ bucket v ≤ 5 ∧
      custom_cmap v = palette.getD (bucket v).toNat "#ffffff") ∧
    bucket 5 = 5 ∧ bucket 6 = 5 ∧ bucket 1000 = 5 ∧ bucket 0 = 0 ∧
    bucket (-3) = 0 ∧ palette.length = 6 ∧ palette.Pairwise (fun a b => a ≠ b) := by
  refine ⟨?_, by decide, by decide, by decide, by decide, by decide, by decide, by decide⟩
  intro v
  have h : bucket v = 0 ∨ bucket v = 1 ∨ bucket v = 2 ∨ bucket v = 3 ∨
      bucket v = 4 ∨ bucket v = 5 := by unfold bucket; omega
  refine ⟨by unfold bucket; omega, by unfold bucket; omega, ?_⟩
  unfold custom_cmap
  rcases h with h | h | h | h | h | h <;> rw [h] <;> rfl

/-- C4, counterexample: `PAPERS_TZ = "Not/A/Zone"` (invalid), `TZ = "UTC"`
(valid): the code returns the local date (0), not today in the `TZ` zone
(100), refuting "invalid name falls through to the next option in the
chain". -/
theorem today_in_tz_skips_ambient :
    cfgCex.validZone "Not/A/Zone" = false ∧ cfgCex.validZone "UTC" = true ∧
    today_in_tz cfgCex envCex = cfgCex.localToday ∧
    today_in_tz cfgCex envCex ≠ cfgCex.zoneToday "UTC" := by decide

/-- C4, amended: the fallback chain is `PAPERS_TZ` (if set and non-empty),
else `TZ` (if set and non-empty), else the process-local date; a consulted
name that is invalid — or an unavailable zone database — yields the
process-local date directly, without consulting the next variable. -/
theorem today_in_tz_chain (cfg : TzConfig) (env : Env) :
    today_in_tz cfg env = resolveChainSpec cfg env := by
  unfold today_in_tz resolveChainSpec pyOr truthyStr
  cases hp : env.papers_tz with
  | none =>
    cases ht : env.tz with
    | none => rfl
    | some t =>
      by_cases h : t = "" <;> simp [h] <;> cases cfg.zoneinfoAvailable <;> simp
  | some s =>
    by_cases h : s = ""
    · cases ht : env.tz with
      | none => simp [h]
      | some t =>
        by_cases h2 : t = "" <;> simp [h, h2] <;> cases cfg.zoneinfoAvailable <;> simp
    · simp [h] <;> cases cfg.zoneinfoAvailable <;> simp

/-- Indexing a map over `List.range`. -/
theorem getD_map_range {α : Type _} (n : Nat) (f : Nat → α) (i : Nat) (d : α)
    (h : i < n) : ((List.range n).map f).getD i d = f i := by
  rw [List.getD_eq_getElem?_getD, List.getElem?_map, List.getElem?_range h]
  rfl

/-- Inside the window, `per_day`'s window-filtered count agrees with the raw
count of entries on that date. -/
theorem per_day_eq_countOnDate (papers : List Entry) (start today d : Int)
    (hd : start ≤ d ∧ d ≤ today) :
    per_day papers start today d = countOnDate papers d := by
  unfold per_day countOnDate
  apply List.countP_congr
  intro p _
  cases hp : parse_date p.dateStr with
  | none => simp
  | some x =>
    by_cases hx : x = d
    · subst hx
      simp [hd.1, hd.2]
    · simp [hx]

/-- C1: the heatmap grid has exactly 7 rows and 53 columns, and the cell at
row `dow`, column `w` is present (carrying the number of entries dated
`grid_start + (7*w + dow)`, possibly zero) exactly when that date lies in
`[today - 364, today]`, and absent (`none`, no count) otherwise. -/
theorem heatmap_grid_cells (papers : List Entry) (today : Int) :
    (heatmapData papers today).length = 7 ∧
    (∀ row ∈ heatmapData papers today, row.length = 53) ∧
    (∀ dow w, dow < 7 → w < 53 →
      ((heatmapData papers today).getD dow []).getD w none =
        (if today - 364 ≤ cellDate (today - 364) w dow ∧
            cellDate (today - 364) w dow ≤ today
         then some (countOnDate papers (cellDate (today - 364) w dow))
         else none)) := by
  refine ⟨by simp [heatmapData], ?_, ?_⟩
  · intro row hrow
    simp only [heatmapData, List.mem_map] at hrow
    obtain ⟨dow, -, hrow⟩ := hrow
    simp [← hrow]
  · intro dow w hdow hw
    unfold heatmapData
    rw [getD_map_range 7 _ dow _ hdow, getD_map_range 53 _ w _ hw]
    by_cases hin : today - 364 ≤ cellDate (today - 364) w dow ∧
        cellDate (today - 364) w dow ≤ today
    · rw [if_pos hin, if_pos hin,
        per_day_eq_countOnDate papers (today - 364) today _ hin]
    · rw [if_neg hin, if_neg hin]

/-- C1 witness: with one entry dated 2024-01-01 and `today` = ordinal 738886
(2024-01-01 itself), the cell at row 1 (Monday), column 52 is in range and
counts that entry. -/
theorem heatmap_grid_cells_witness :
    ((heatmapData [{ date := some "2024-01-01" }] 738886).getD 1 []).getD 52 none
      = some 1 := by
  have h := (heatmap_grid_cells [{ date := some "2024-01-01" }] 738886).2.2 1 52
    (by decide) (by decide)
  rw [h]
  decide

/-- Rewriting `List.sum` over a mapped `List.range` as a `Finset` sum. -/
theorem sum_map_range (n : Nat) (f : Nat → Nat) :
    ((List.range n).map f).sum = ∑ i in Finset.range n, f i := by
  induction n with
  | zero => simp
  | succ n ih => rw [List.range_succ, Finset.sum_range_succ, List.map_append, List.sum_append, ih]; simp

/-- Splitting a range sum at `m`. -/
theorem sum_range_split (g : Nat → Nat) (m k : Nat) :
    ∑ n in Finset.range (m + k), g n =
      (∑ n in Finset.range m, g n) + ∑ i in Finset.range k, g (m + i) := by
  induction k with
  | zero => simp
  | succ k ih =>
    rw [show m + (k + 1) = (m + k) + 1 by omega, Finset.sum_range_succ, ih,
      Finset.sum_range_succ, Nat.add_assoc]

/-- Collapsing a `b`-strided double range sum. -/
theorem sum_range_strided (g : Nat → Nat) (b : Nat) :
    ∀ a, ∑ w in Finset.range a, ∑ i in Finset.range b, g (b * w + i) =
      ∑ n in Finset.range (a * b), g n := by
  intro a
  induction a with
  | zero => simp
  | succ a ih =>
    rw [Finset.sum_range_succ, ih, show (a + 1) * b = a * b + b by ring,
      sum_range_split g (a * b) b, Nat.mul_comm b a]

/-- The shift `days_to_prev_sun` is between 0 and 6. -/
theorem days_to_prev_sun_bounds (start : Int) :
    0 ≤ days_to_prev_sun start ∧ days_to_prev_sun start < 7 := by
  simp only [days_to_prev_sun, weekday]
  omega

/-- Restricting the entries to those inside the window does not change any
`per_day` count. -/
theorem per_day_filter (papers : List Entry) (start today d : Int) :
    per_day (papers.filter (inWindow start today)) start today d =
      per_day papers start today d := by
  unfold per_day
  rw [List.countP_filter]
  apply List.countP_congr
  intro p _
  cases hp : parse_date p.dateStr with
  | none => simp [inWindow, hp]
  | some x =>
    simp only [inWindow, hp]
    by_cases h1 : start ≤ x <;> by_cases h2 : x ≤ today <;> simp [h1, h2]

/-- Restricting the entries to the window leaves the whole grid unchanged. -/
theorem heatmapData_filter (papers : List Entry) (today : Int) :
    heatmapData (papers.filter (inWindow (today - 364) today)) today =
      heatmapData papers today := by
  simp only [heatmapData]
  congr 1
  funext dow
  congr 1
  funext w
  rw [per_day_filter]

/-- The grid total as a double sum over day rows and week columns. -/
theorem gridTotal_heatmap (papers : List Entry) (today : Int) :
    gridTotal (heatmapData papers today) =
      ∑ dow in Finset.range 7, ∑ w in Finset.range 53,
        (if today - 364 ≤ cellDate (today - 364) w dow ∧
            cellDate (today - 364) w dow ≤ today
         then per_day papers (today - 364) today (cellDate (today - 364) w dow)
         else 0) := by
  simp only [gridTotal, heatmapData, List.map_map]
  rw [sum_map_range]
  apply Finset.sum_congr rfl
  intro dow _
  simp only [Function.comp_apply]
  rw [List.map_map]
  rw [sum_map_range]
  apply Finset.sum_congr rfl
  intro w _
  simp only [Function.comp_apply]
  by_cases h : today - 364 ≤ cellDate (today - 364) w dow ∧
      cellDate (today - 364) w dow ≤ today
  · rw [if_pos h, if_pos h]
    rfl
  · rw [if_neg h, if_neg h]
    rfl


/-- The `per_day` membership test for one entry, split into a window test and
a date-equality test. -/
theorem per_day_cons (p : Entry) (ps : List Entry) (s t d : Int) :
    per_day (p :: ps) s t d = per_day ps s t d +
      (if (inWindow s t p && (parse_date p.dateStr == some d)) = true
       then 1 else 0) := by
  unfold per_day
  rw [List.countP_cons]
  congr 1
  cases hp : parse_date p.dateStr with
  | none => simp [inWindow, hp]
  | some x =>
    simp only [inWindow, hp]
    by_cases h1 : s ≤ x <;> by_cases h2 : x ≤ t <;> by_cases h3 : x = d <;>
      simp [h1, h2, h3]

/-- Unfolding a true window test. -/
theorem inWindow_eq_true {s t : Int} {p : Entry} (h : inWindow s t p = true) :
    ∃ x, parse_date p.dateStr = some x ∧ s ≤ x ∧ x ≤ t := by
  unfold inWindow at h
  cases hp : parse_date p.dateStr with
  | none => rw [hp] at h; simp at h
  | some x =>
    rw [hp] at h
    simp only [Bool.and_eq_true, decide_eq_true_eq] at h
    exact ⟨x, rfl, h.1, h.2⟩

/-- Summing the masked `per_day` values over the 371 grid dates counts
exactly the entries whose parsed date lies in the window. -/
theorem window_sum_eq_countP (papers : List Entry) (today : Int) :
    ∑ n in Finset.range 371,
      (if today - 364 ≤ grid_start (today - 364) + (n : Int) ∧
          grid_start (today - 364) + (n : Int) ≤ today
       then per_day papers (today - 364) today (grid_start (today - 364) + (n : Int))
       else 0)
      = papers.countP (inWindow (today - 364) today) := by
  induction papers with
  | nil => simp [per_day]
  | cons p ps ih =>
    rw [List.countP_cons]
    have hsplit : ∀ n ∈ Finset.range 371,
        (if today - 364 ≤ grid_start (today - 364) + (n : Int) ∧
            grid_start (today - 364) + (n : Int) ≤ today
         then per_day (p :: ps) (today - 364) today (grid_start (today - 364) + (n : Int))
         else 0)
        = (if today - 364 ≤ grid_start (today - 364) + (n : Int) ∧
              grid_start (today - 364) + (n : Int) ≤ today
           then per_day ps (today - 364) today (grid_start (today - 364) + (n : Int))
           else 0)
          + (if (today - 364 ≤ grid_start (today - 364) + (n : Int) ∧
                  grid_start (today - 364) + (n : Int) ≤ today) ∧
                (inWindow (today - 364) today p &&
                  (parse_date p.dateStr == some (grid_start (today - 364) + (n : Int)))) = true
             then 1 else 0) := by
      intro n _
      by_cases hw : today - 364 ≤ grid_start (today - 364) + (n : Int) ∧
          grid_start (today - 364) + (n : Int) ≤ today
      · rw [if_pos hw, if_pos hw, per_day_cons]
        by_cases hp : (inWindow (today - 364) today p &&
            (parse_date p.dateStr == some (grid_start (today - 364) + (n : Int)))) = true
        · rw [if_pos hp, if_pos ⟨hw, hp⟩]
        · rw [if_neg hp, if_neg (fun hc => hp hc.2)]
      · rw [if_neg hw, if_neg hw, if_neg (fun hc => hw hc.1), Nat.add_zero]
    have hind : (∑ n in Finset.range 371,
        (if (today - 364 ≤ grid_start (today - 364) + (n : Int) ∧
              grid_start (today - 364) + (n : Int) ≤ today) ∧
            (inWindow (today - 364) today p &&
              (parse_date p.dateStr == some (grid_start (today - 364) + (n : Int)))) = true
         then 1 else 0))
        = (if inWindow (today - 364) today p = true then 1 else 0) := by
      by_cases hin : inWindow (today - 364) today p = true
      · obtain ⟨x, hx, hx1, hx2⟩ := inWindow_eq_true hin
        have hdtps := days_to_prev_sun_bounds (today - 364)
        have hgs : grid_start (today - 364) ≤ x ∧
            x - grid_start (today - 364) ≤ 370 := by
          unfold grid_start at *
          omega
        have hterm : ∀ n ∈ Finset.range 371,
            (if (today - 364 ≤ grid_start (today - 364) + (n : Int) ∧
                  grid_start (today - 364) + (n : Int) ≤ today) ∧
                (inWindow (today - 364) today p &&
                  (parse_date p.dateStr == some (grid_start (today - 364) + (n : Int)))) = true
             then 1 else 0)
            = (if n = (x - grid_start (today - 364)).toNat then 1 else 0) := by
          intro n _
          by_cases hn : n = (x - grid_start (today - 364)).toNat
          · subst hn
            rw [if_pos rfl, if_pos]
            refine ⟨by omega, ?_⟩
            rw [hin, hx]
            simp only [Bool.true_and, beq_iff_eq, Option.some.injEq]
            omega
          · rw [if_neg hn, if_neg]
            intro hcon
            rcases hcon with ⟨-, hm⟩
            rw [hx] at hm
            simp only [Bool.and_eq_true, beq_iff_eq, Option.some.injEq] at hm
            omega
        rw [Finset.sum_congr rfl hterm, Finset.sum_ite_eq' (Finset.range 371),
          if_pos (by simp only [Finset.mem_range]; omega), if_pos hin]
      · have hterm : ∀ n ∈ Finset.range 371,
            (if (today - 364 ≤ grid_start (today - 364) + (n : Int) ∧
                  grid_start (today - 364) + (n : Int) ≤ today) ∧
                (inWindow (today - 364) today p &&
                  (parse_date p.dateStr == some (grid_start (today - 364) + (n : Int)))) = true
             then 1 else 0) = 0 := by
          intro n _
          rw [if_neg]
          intro hcon
          rcases hcon with ⟨-, hm⟩
          rw [Bool.and_eq_true] at hm
          exact hin hm.1
        rw [Finset.sum_congr rfl hterm, Finset.sum_const_zero, if_neg hin]
    rw [Finset.sum_congr rfl hsplit, Finset.sum_add_distrib, ih, hind]

/-- C3: the sum of the counts of all in-range heatmap cells equals the number
of entries whose parsed date lies in `[today - 364, today]`; entries whose
date is outside the window, missing, or unparseable affect no grid cell (the
grid built from the window-filtered entries is identical), and every entry is
handled totally (no error path exists in the model). -/
theorem heatmap_count_conservation (papers : List Entry) (today : Int) :
    gridTotal (heatmapData papers today) =
      papers.countP (inWindow (today - 364) today) ∧
    heatmapData (papers.filter (inWindow (today - 364) today)) today =
      heatmapData papers today := by
  refine ⟨?_, heatmapData_filter papers today⟩
  rw [gridTotal_heatmap, Finset.sum_comm]
  have hcell : ∀ w ∈ Finset.range 53, ∀ dow ∈ Finset.range 7,
      (if today - 364 ≤ cellDate (today - 364) w dow ∧
          cellDate (today - 364) w dow ≤ today
       then per_day papers (today - 364) today (cellDate (today - 364) w dow)
       else 0)
      = (if today - 364 ≤ grid_start (today - 364) + ((7 * w + dow : Nat) : Int) ∧
            grid_start (today - 364) + ((7 * w + dow : Nat) : Int) ≤ today
         then per_day papers (today - 364) today
           (grid_start (today - 364) + ((7 * w + dow : Nat) : Int))
         else 0) := by
    intro w _ dow _
    have harg : grid_start (today - 364) + ((7 * w + dow : Nat) : Int) =
        cellDate (today - 364) w dow := by
      unfold cellDate
      push_cast
      ring
    rw [harg]
  rw [Finset.sum_congr rfl (fun w hw => Finset.sum_congr rfl (hcell w hw))]
  rw [sum_range_strided
    (fun n => if today - 364 ≤ grid_start (today - 364) + (n : Int) ∧
        grid_start (today - 364) + (n : Int) ≤ today
      then per_day papers (today - 364) today (grid_start (today - 364) + (n : Int))
      else 0) 7 53]
  exact window_sum_eq_countP papers today

/-- C6: entries whose category key is absent are grouped under the sentinel
label `"Unknown"`; the count stored under a label is the number of entries
whose effective category is exactly (case-sensitively) that string; and the
per-category counts sum to the total number of entries. -/
theorem categorize_conservation (papers : List Entry) :
    (∀ p ∈ papers, p.category = none → effCategory p = "Unknown") ∧
    (∀ c : String, categoryCount papers c =
      (papers.filter (fun p => effCategory p == c)).length) ∧
    (∑ c in (papers.map effCategory).toFinset, categoryCount papers c
      = papers.length) := by
  refine ⟨?_, ?_, ?_⟩
  · intro p _ h
    simp [effCategory, h]
  · intro c
    unfold categoryCount
    rw [List.count_eq_countP, List.countP_map, List.countP_eq_length_filter]
    rfl
  · have h := Multiset.toFinset_sum_count_eq (papers.map effCategory : Multiset String)
    simpa [categoryCount] using h

/-- C6 witness: on a two-entry list with one absent category, the sentinel is
used for the absent one and the per-category counts behave as stated. -/
theorem categorize_conservation_witness :
    effCategory missingEntry = "Unknown" ∧
    categoryCount [missingEntry, { category := some "ML" }] "ML" = 1 := by
  constructor
  · exact (categorize_conservation [missingEntry, { category := some "ML" }]).1
      missingEntry (by simp) (by rfl)
  · rw [(categorize_conservation [missingEntry, { category := some "ML" }]).2.1 "ML"]
    decide

/-- C5, counterexample: the claim says an entry with a missing or unparseable
date "never appears before any entry with a valid date".  With the entries
`[missingEntry, minDateEntry]`, where `minDateEntry` carries the valid date
`0001-01-01` (= `datetime.date.min`), both sort keys equal `date.min`, the
stable sort keeps the original order, and `recent` places the missing-date
entry before the validly dated one. -/
theorem recent_missing_before_valid :
    recent [missingEntry, minDateEntry] 2 = [missingEntry, minDateEntry] ∧
    missingEntry.date = none ∧
    parse_date minDateEntry.dateStr = some dateMinOrdinal := by decide

/-- C5, amended: `recent` returns the entries stably sorted by parsed date
descending (missing/unparseable dates keyed as `date.min` = 0001-01-01) and
truncated to `limit`: the result is a permutation sorted by key descending,
ties keep their original relative order, and a missing-or-minimum-dated entry
is never followed by an entry with a strictly later date — though it may
precede entries dated exactly 0001-01-01, with which it ties. -/
theorem recent_sorted_stable (papers : List Entry) (limit : Nat) :
    (recentSorted papers).Perm papers ∧
    (recentSorted papers).Pairwise (fun p q => recentKey q ≤ recentKey p) ∧
    (sortStable (fun p q : Nat × Entry => recentLe p.2 q.2) papers.enum).map Prod.snd
      = recentSorted papers ∧
    (sortStable (fun p q : Nat × Entry => recentLe p.2 q.2) papers.enum).Pairwise
      (fun p q => recentKey q.2 ≤ recentKey p.2 ∧
        (recentKey p.2 = recentKey q.2 → p.1 < q.1)) ∧
    (recentSorted papers).Pairwise
      (fun p q => recentKey p = dateMinOrdinal → recentKey q = dateMinOrdinal) ∧
    recent papers limit = (recentSorted papers).take limit := by
  have htot : ∀ a b : Entry, recentLe a b = true ∨ recentLe b a = true := by
    intro a b
    unfold recentLe
    simp only [decide_eq_true_eq]
    omega
  have htrans : ∀ a b c : Entry,
      recentLe a b = true → recentLe b c = true → recentLe a c = true := by
    intro a b c
    unfold recentLe
    simp only [decide_eq_true_eq]
    omega
  have hsorted := sortStable_pairwise recentLe htrans htot papers
  refine ⟨sortStable_perm recentLe papers, ?_, ?_, ?_, ?_, rfl⟩
  · exact hsorted.imp (fun h => by
      simpa only [recentLe, decide_eq_true_eq] using h)
  · exact sortStable_map recentLe (fun p q : Nat × Entry => recentLe p.2 q.2)
      Prod.snd (fun p q => rfl) papers.enum |>.trans
      (by rw [List.enum_map_snd]; rfl)
  · have hst := sortStable_stable recentLe htrans htot papers.enum
      (pairwise_lt_enumFrom 0 papers)
    exact hst.imp (fun h => by
      obtain ⟨h1, h2⟩ := h
      simp only [recentLe, decide_eq_true_eq] at h1 h2
      exact ⟨h1, fun he => h2 (le_of_eq he)⟩)
  · refine hsorted.imp (fun {a b} h => ?_)
    simp only [recentLe, decide_eq_true_eq] at h
    intro hmin
    have := recentKey_ge_min b
    omega

/-- Code-point string order is total. -/
theorem strLeB_total (as : List Char) :
    ∀ bs, strLeB as bs = true ∨ strLeB bs as = true := by
  induction as with
  | nil => intro bs; left; cases bs <;> rfl
  | cons a as ih =>
    intro bs
    cases bs with
    | nil => right; rfl
    | cons b bs' =>
      simp only [strLeB]
      by_cases h1 : a.toNat < b.toNat
      · left; simp [h1]
      · by_cases h2 : b.toNat < a.toNat
        · right; simp [h2]
        · rcases ih bs' with h | h
          · left; simp [h1, h2, h]
          · right; simp [h1, h2, h]

/-- Code-point string order is transitive. -/
theorem strLeB_trans (as : List Char) :
    ∀ bs cs, strLeB as bs = true → strLeB bs cs = true → strLeB as cs = true := by
  induction as with
  | nil => intro bs cs _ _; cases cs <;> rfl
  | cons a as ih =>
    intro bs cs h1 h2
    cases bs with
    | nil => simp [strLeB] at h1
    | cons b bs' =>
      cases cs with
      | nil => simp [strLeB] at h2
      | cons c cs' =>
        simp only [strLeB] at h1 h2 ⊢
        rcases Nat.lt_trichotomy a.toNat b.toNat with hab | hab | hab
        · rcases Nat.lt_trichotomy b.toNat c.toNat with hbc | hbc | hbc
          · rw [if_pos (show a.toNat < c.toNat by omega)]
          · rw [if_pos (show a.toNat < c.toNat by omega)]
          · rw [if_neg (show ¬ b.toNat < c.toNat by omega), if_pos hbc] at h2
            simp at h2
        · rcases Nat.lt_trichotomy b.toNat c.toNat with hbc | hbc | hbc
          · rw [if_pos (show a.toNat < c.toNat by omega)]
          · rw [if_neg (show ¬ a.toNat < b.toNat by omega),
              if_neg (show ¬ b.toNat < a.toNat by omega)] at h1
            rw [if_neg (show ¬ b.toNat < c.toNat by omega),
              if_neg (show ¬ c.toNat < b.toNat by omega)] at h2
            rw [if_neg (show ¬ a.toNat < c.toNat by omega),
              if_neg (show ¬ c.toNat < a.toNat by omega)]
            exact ih bs' cs' h1 h2
          · rw [if_neg (show ¬ b.toNat < c.toNat by omega), if_pos hbc] at h2
            simp at h2
        · rw [if_neg (show ¬ a.toNat < b.toNat by omega), if_pos hab] at h1
          simp at h1

/-- The table row order is total. -/
theorem tableLe_total (a b : String × Nat) :
    tableLe a b = true ∨ tableLe b a = true := by
  unfold tableLe
  by_cases h : a.2 = b.2
  · rw [if_pos h, if_pos h.symm]
    exact strLeB_total _ _
  · rw [if_neg h, if_neg (fun he => h he.symm)]
    simp only [decide_eq_true_eq]
    omega

/-- The table row order is transitive. -/
theorem tableLe_trans (a b c : String × Nat) :
    tableLe a b = true → tableLe b c = true → tableLe a c = true := by
  intro h1 h2
  unfold tableLe at h1 h2 ⊢
  by_cases hab : a.2 = b.2
  · by_cases hbc : b.2 = c.2
    · rw [if_pos hab] at h1
      rw [if_pos hbc] at h2
      rw [if_pos (hab.trans hbc)]
      exact strLeB_trans _ _ _ h1 h2
    · rw [if_neg hbc] at h2
      have h2' : c.2 < b.2 := of_decide_eq_true h2
      rw [if_neg (show ¬ a.2 = c.2 by omega)]
      exact decide_eq_true (by omega)
  · rw [if_neg hab] at h1
    have h1' : b.2 < a.2 := of_decide_eq_true h1
    by_cases hbc : b.2 = c.2
    · rw [if_neg (show ¬ a.2 = c.2 by omega)]
      exact decide_eq_true (by omega)
    · rw [if_neg hbc] at h2
      have h2' : c.2 < b.2 := of_decide_eq_true h2
      rw [if_neg (show ¬ a.2 = c.2 by omega)]
      exact decide_eq_true (by omega)

/-- C9, counterexample: on the counts `[("B", 1), ("a", 1)]` the rendered
rows are `("a", 1)` then `("B", 1)` (the code sorts ties by the lowercased
name), which violates "among equal counts, by category name ascending":
`"B" < "a"` in (case-sensitive) string order. -/
theorem render_table_case_order :
    tableRows countsCex = [("a", 1), ("B", 1)] ∧
    ¬ (tableRows countsCex).Pairwise (fun a b => b.2 < a.2 ∨ (a.2 = b.2 ∧
      strLeB a.1.toList b.1.toList = true)) := by decide

/-- C9, amended: the breakdown rows are a permutation of the counts sorted by
count descending and, among equal counts, by the lowercased (case-insensitive)
category name ascending, followed by the total row. -/
theorem render_table_sorted (counts : List (String × Nat)) (total : Nat) :
    (tableRows counts).Perm counts ∧
    (tableRows counts).Pairwise (fun a b => b.2 < a.2 ∨ (a.2 = b.2 ∧
      strLeB (lowerAscii a.1).toList (lowerAscii b.1).toList = true)) ∧
    render_table_md counts total =
      ["\n**Breakdown**", "", "| Category | Count |", "|---|---|"]
        ++ (tableRows counts).map
            (fun kv => "| " ++ kv.1 ++ " | " ++ toString kv.2 ++ " |")
        ++ ["| **Total** | **" ++ toString total ++ "** |"] := by
  refine ⟨sortStable_perm tableLe counts, ?_, rfl⟩
  have hp := sortStable_pairwise tableLe tableLe_trans tableLe_total counts
  refine hp.imp (fun {a b} h => ?_)
  unfold tableLe at h
  by_cases hab : a.2 = b.2
  · rw [if_pos hab] at h
    exact Or.inr ⟨hab, h⟩
  · rw [if_neg hab] at h
    exact Or.inl (of_decide_eq_true h)

/-- A found index is an occurrence, and the first one. -/
theorem firstMatch_some (pat : List Char) :
    ∀ (hay : List Char) (i : Nat), firstMatch hay pat = some i →
      pat.isPrefixOf (List.drop i hay) = true ∧
      ∀ j, j < i → pat.isPrefixOf (List.drop j hay) = false := by
  intro hay
  induction hay with
  | nil =>
    intro i h
    unfold firstMatch at h
    split at h
    · rename_i hp
      injection h with h'
      subst h'
      exact ⟨hp, fun j hj => absurd hj (by omega)⟩
    · simp at h
  | cons c t ih =>
    intro i h
    unfold firstMatch at h
    split at h
    · rename_i hp
      injection h with h'
      subst h'
      exact ⟨hp, fun j hj => absurd hj (by omega)⟩
    · rename_i hp
      cases hm : firstMatch t pat with
      | none => rw [hm] at h; simp at h
      | some i' =>
        rw [hm] at h
        have h' : i = i' + 1 := by simpa using h.symm
        subst h'
        obtain ⟨ha, hb⟩ := ih i' hm
        refine ⟨ha, ?_⟩
        intro j hj
        cases j with
        | zero =>
          simp only [List.drop_zero]
          exact Bool.eq_false_iff.mpr hp
        | succ j' =>
          rw [List.drop_succ_cons]
          exact hb j' (by omega)

/-- A failed search means no occurrence at any index. -/
theorem firstMatch_none (pat : List Char) :
    ∀ (hay : List Char), firstMatch hay pat = none →
      ∀ j, pat.isPrefixOf (List.drop j hay) = false := by
  intro hay
  induction hay with
  | nil =>
    intro h j
    unfold firstMatch at h
    split at h
    · simp at h
    · rename_i hp
      rw [List.drop_nil]
      exact Bool.eq_false_iff.mpr hp
  | cons c t ih =>
    intro h j
    unfold firstMatch at h
    split at h
    · simp at h
    · rename_i hp
      cases hm : firstMatch t pat with
      | some i => rw [hm] at h; simp at h
      | none =>
        cases j with
        | zero =>
          simp only [List.drop_zero]
          exact Bool.eq_false_iff.mpr hp
        | succ j' =>
          rw [List.drop_succ_cons]
          exact ih hm j'

/-- Splitting `take` of a sum. -/
theorem take_add_split {α : Type _} :
    ∀ (l : List α) (m n : Nat), l.take (m + n) = l.take m ++ (l.drop m).take n := by
  intro l
  induction l with
  | nil => intro m n; simp
  | cons a t ih =>
    intro m n
    cases m with
    | zero => simp
    | succ m' =>
      rw [show m' + 1 + n = (m' + n) + 1 by omega]
      simp only [List.take_succ_cons, List.drop_succ_cons]
      rw [ih m' n, List.cons_append]

/-- C8: `update_readme` fails exactly when a marker is absent or the first
occurrence of `MARK_END` precedes the first occurrence of `MARK_START` (and
then produces no document, leaving the README unmodified); on success the
result is the text up to and including the first `MARK_START`, a newline, the
generated content, a newline, and the document from the first `MARK_END`
onward — so everything before the start marker and from the end marker on is
unchanged, and only the span between the markers is replaced. -/
theorem update_readme_markers (md insert : List Char) :
    ((∃ msg, update_readme md insert = Except.error msg) ↔
      firstMatch md MARK_START = none ∨ firstMatch md MARK_END = none ∨
      (∃ s e, firstMatch md MARK_START = some s ∧
        firstMatch md MARK_END = some e ∧ e < s)) ∧
    (∀ s e, firstMatch md MARK_START = some s → firstMatch md MARK_END = some e →
      s ≤ e →
      update_readme md insert =
        Except.ok (md.take s ++ MARK_START ++ ('\n' :: insert) ++ ('\n' :: md.drop e)) ∧
      MARK_START.isPrefixOf (md.drop s) = true ∧
      MARK_END.isPrefixOf (md.drop e) = true ∧
      (∀ j, j < s → MARK_START.isPrefixOf (md.drop j) = false) ∧
      (∀ j, j < e → MARK_END.isPrefixOf (md.drop j) = false)) ∧
    (firstMatch md MARK_START = none →
      ∀ j, MARK_START.isPrefixOf (md.drop j) = false) ∧
    (firstMatch md MARK_END = none →
      ∀ j, MARK_END.isPrefixOf (md.drop j) = false) := by
  cases hs : firstMatch md MARK_START with
  | none =>
    refine ⟨⟨fun _ => Or.inl rfl,
      fun _ => ⟨"Markers not found in README.md", by simp [update_readme, hs]⟩⟩,
      ?_, fun _ => firstMatch_none MARK_START md hs, fun he => firstMatch_none MARK_END md he⟩
    intro s e h1
    exact absurd h1 (by simp)
  | some s0 =>
    cases he : firstMatch md MARK_END with
    | none =>
      refine ⟨⟨fun _ => Or.inr (Or.inl rfl),
        fun _ => ⟨"Markers not found in README.md", by simp [update_readme, hs, he]⟩⟩,
        ?_, fun h => absurd h (by simp), fun _ => firstMatch_none MARK_END md he⟩
      intro s e h1 h2
      exact absurd h2 (by simp)
    | some e0 =>
      by_cases hlt : e0 < s0
      · refine ⟨⟨fun _ => Or.inr (Or.inr ⟨s0, e0, rfl, rfl, hlt⟩),
          fun _ => ⟨"Markers not found in README.md",
            by simp [update_readme, hs, he, hlt]⟩⟩,
          ?_, fun h => absurd h (by simp), fun h => absurd h (by simp)⟩
        intro s e h1 h2 h3
        injection h1 with h1'
        injection h2 with h2'
        exfalso
        omega
      · refine ⟨?_, ?_, fun h => absurd h (by simp), fun h => absurd h (by simp)⟩
        · constructor
          · rintro ⟨msg, hmsg⟩
            simp [update_readme, hs, he, hlt] at hmsg
          · rintro (h | h | ⟨s, e, h1, h2, h3⟩)
            · exact absurd h (by simp)
            · exact absurd h (by simp)
            · injection h1 with h1'
              injection h2 with h2'
              exfalso
              omega
        · intro s e h1 h2 h3
          injection h1 with h1'
          injection h2 with h2'
          subst h1'
          subst h2'
          have hpreS := (firstMatch_some MARK_START md s0 hs).1
          refine ⟨?_, hpreS, (firstMatch_some MARK_END md e0 he).1,
            (firstMatch_some MARK_START md s0 hs).2,
            (firstMatch_some MARK_END md e0 he).2⟩
          simp only [update_readme, hs, he]
          rw [if_neg (by omega)]
          obtain ⟨r, hr⟩ := List.isPrefixOf_iff_prefix.mp hpreS
          rw [take_add_split md s0 MARK_START.length, ← hr, List.take_left]
  -- success shape established

/-- C8 witness: on a document with both markers in order, the splice replaces
exactly the span between them. -/
theorem update_readme_markers_witness :
    update_readme mdCex "XY".toList =
      Except.ok ("A<!--CHART_START-->\nXY\n<!--CHART_END-->C".toList) := by
  have h := (update_readme_markers mdCex "XY".toList).2.1 1 20
    (by decide) (by decide) (by decide)
  exact h.1.trans (congrArg Except.ok (by decide))

/-- Membership in an if-then-else with an empty positive branch. -/
theorem mem_ite_nil {m x : String} {c : Prop} [Decidable c]
    (hm : m ∈ (if c then ([] : List String) else [x])) : m = x := by
  split at hm
  · exact absurd hm (by simp)
  · simpa using hm

/-- Membership in the date/link error piece of `recErrors`. -/
theorem mem_field_err {m msg : String} {v : Option Val} {ok : String → Bool}
    (hm : m ∈ (match strField v with
      | some s => if ok s then ([] : List String) else [msg]
      | none => [msg])) : m = msg := by
  cases hsf : strField v with
  | none =>
    rw [hsf] at hm
    simpa using hm
  | some s =>
    rw [hsf] at hm
    simp only at hm
    split at hm
    · exact absurd hm (by simp)
    · simpa using hm

/-- Membership in the note error piece of `recErrors`. -/
theorem mem_note_err {m msg : String} {v : Option Val}
    (hm : m ∈ (match v with
      | some (.other t) => [msg]
      | _ => ([] : List String))) : m = msg := by
  cases v with
  | none => simp at hm
  | some w =>
    cases w with
    | str s => simp at hm
    | other t => simpa using hm

/-- The error stream of the validation loop ignores the duplicate-tracking
state and is the concatenation of every record's errors. -/
theorem validateAux_errors :
    ∀ (items : List Item) (i : Nat) (sL : List String) (sTD : List (Val × Val)),
      (validateAux i items sL sTD).1 =
        (List.enumFrom i items).bind (fun p => recErrors p.1 p.2) := by
  intro items
  induction items with
  | nil => intro i sL sTD; rfl
  | cons it rest ih =>
    intro i sL sTD
    simp only [validateAux, List.enumFrom_cons, List.cons_bind]
    rw [ih]

/-- C10: the validation CLI accumulates every record's errors across the
whole dataset (the error stream is the concatenation of each record's error
lines, indexed from 1 — it never stops at the first invalid record), every
record error message names its record's index, the exit code is non-zero
exactly when at least one record error exists (warnings are not consulted),
and on the scenario dataset — one entry missing `title`, one dated
`2024-13-40`, all else valid — it reports exactly 2 record errors, exits 1,
and emits zero warnings. -/
theorem validate_accumulates (items : List Item) :
    (validate_papers items).errors =
      (List.enumFrom 1 items).bind (fun p => recErrors p.1 p.2) ∧
    (validate_papers items).exitCode =
      (if (validate_papers items).errors = [] then 0 else 1) ∧
    ((validate_papers items).exitCode ≠ 0 ↔ (validate_papers items).errors ≠ []) ∧
    (∀ i it, ∀ m ∈ recErrors i it, ∃ tail, m = ("item #" ++ toString i) ++ tail) ∧
    (validate_papers scenarioItems).errors.length = 2 ∧
    (validate_papers scenarioItems).warns = [] ∧
    (validate_papers scenarioItems).exitCode = 1 := by
  have hexit : (validate_papers items).exitCode =
      (if (validate_papers items).errors = [] then 0 else 1) := by
    simp only [validate_papers]
    by_cases h : (validateAux 1 items [] []).1 = []
    · simp [h]
    · simp [h, List.length_eq_zero]
  refine ⟨validateAux_errors items 1 [] [], hexit, ?_, ?_, by decide, by decide, by decide⟩
  · rw [hexit]
    by_cases h : (validate_papers items).errors = [] <;> simp [h]
  · intro i it m hm
    cases it with
    | notMapping =>
      simp only [recErrors, List.mem_singleton] at hm
      subst hm
      exact ⟨" must be a mapping", rfl⟩
    | mapping t c d l n unk =>
      simp only [recErrors, List.mem_append] at hm
      rcases hm with (((hm | hm) | hm) | hm) | hm
      · rw [mem_ite_nil hm]
        exact ⟨": missing or empty title", rfl⟩
      · rw [mem_ite_nil hm]
        exact ⟨": missing or empty category", rfl⟩
      · rw [mem_field_err hm]
        exact ⟨": date must be ISO YYYY-MM-DD", rfl⟩
      · rw [mem_field_err hm]
        exact ⟨": link must be an http(s) URL", rfl⟩
      · rw [mem_note_err hm]
        exact ⟨": note must be a string if present", rfl⟩

/-- C10 witness: a record error message for a concrete item is indexed. -/
theorem validate_accumulates_witness :
    "item #1 must be a mapping" ∈ recErrors 1 Item.notMapping ∧
    (∃ tail, "item #1 must be a mapping" = ("item #" ++ toString 1) ++ tail) := by
  refine ⟨by decide, ?_⟩
  exact (validate_accumulates []).2.2.2.1 1 Item.notMapping
    "item #1 must be a mapping" (by decide)

/-- C5 witness: the amended recent-list statement instantiated on a concrete
two-entry list. -/
theorem recent_sorted_stable_witness :
    (recentSorted [({ date := some "2024-01-01" } : Entry),
        { date := some "2024-03-01" }]).Perm
      [({ date := some "2024-01-01" } : Entry), { date := some "2024-03-01" }] ∧
    recent [({ date := some "2024-01-01" } : Entry), { date := some "2024-03-01" }] 1
      = (recentSorted [({ date := some "2024-01-01" } : Entry),
          { date := some "2024-03-01" }]).take 1 :=
  ⟨(recent_sorted_stable [{ date := some "2024-01-01" },
      { date := some "2024-03-01" }] 1).1,
   (recent_sorted_stable [{ date := some "2024-01-01" },
      { date := some "2024-03-01" }] 1).2.2.2.2.2⟩

/-- C9 witness: the amended table-order statement instantiated on concrete
counts. -/
theorem render_table_sorted_witness :
    (tableRows [("x", 2), ("y", 3)]).Perm [("x", 2), ("y", 3)] :=
  (render_table_sorted [("x", 2), ("y", 3)] 5).1
